import Mathlib

/-!
Shallow embedding of the erdos streaming-dataflow core: the time-versioned
operator state (src/dataflow/state.rs), the write stream
(src/dataflow/stream/write_stream.rs) and the inter-process message codec
(src/communication/message_codec.rs), together with theorems about the
retention, garbage-collection, access-gating, watermark-monotonicity,
close-terminality and codec round-trip properties of those components.
-/

deriving instance DecidableEq for Except

namespace Erdos

/-- Modelled from the spec: the `Timestamp` type (src/dataflow/message.rs is
not part of the sources): a totally ordered logical coordinate built from a
sequence of unsigned integers compared lexicographically, with a distinguished
bottom that precedes all others and a distinguished top that succeeds all
others. Represented as `WithBot (WithTop (List Nat))`, whose order is exactly
that description. -/
abbrev Timestamp := WithBot (WithTop (List Nat))

namespace Timestamp

/-- The bottom timestamp, `Timestamp::bottom()`. -/
def bottom : Timestamp := ⊥

/-- The top timestamp, which signals end-of-stream. -/
def top : Timestamp := (⊤ : WithTop (List Nat))

/-- A coordinate timestamp, `Timestamp::new(vec![...])`. -/
def new (ts : List Nat) : Timestamp := ((ts : WithTop (List Nat)) : Timestamp)

end Timestamp

/-- A `BTreeMap<Timestamp, α>` is modelled as an association list whose keys
appear in strictly increasing order. -/
abbrev TMap (α : Type) := List (Timestamp × α)

namespace TMap

/-- The `BTreeMap` key invariant: keys are strictly increasing. -/
def Sorted {α : Type} (m : TMap α) : Prop :=
  m.Pairwise (fun a b => a.1 < b.1)

instance {α : Type} (m : TMap α) : Decidable (Sorted m) := by
  unfold Sorted; infer_instance

/-- Lookup by key, as `BTreeMap::get`. -/
def find {α : Type} (m : TMap α) (t : Timestamp) : Option α :=
  (m.find? (fun p => decide (p.1 = t))).map Prod.snd

/-- Insert, replacing any existing entry, as `BTreeMap::insert`; keeps the
keys sorted. -/
def insertSorted {α : Type} (m : TMap α) (t : Timestamp) (v : α) : TMap α :=
  match m with
  | [] => [(t, v)]
  | p :: rest =>
    if t < p.1 then (t, v) :: p :: rest
    else if t = p.1 then (t, v) :: rest
    else p :: insertSorted rest t v

/-- The map produced by `map.entry(t).or_default()`: inserts the default
value at `t` when `t` has no entry, and keeps the map unchanged otherwise. -/
def entryOrDefault {α : Type} [Inhabited α] (m : TMap α) (t : Timestamp) : TMap α :=
  if (m.find t).isSome then m else m.insertSorted t default

/-- The map assigned by `m = m.split_off(&t)`: the entries with keys `≥ t`. -/
def splitOff {α : Type} (m : TMap α) (t : Timestamp) : TMap α :=
  m.filter (fun p => decide (t ≤ p.1))

/-- Removal by key, as `BTreeMap::remove` (the map after removal). -/
def remove {α : Type} (m : TMap α) (t : Timestamp) : TMap α :=
  m.filter (fun p => ! decide (p.1 = t))

/-- The first key strictly above `t`, as
`m.range((Excluded(t), Unbounded)).next()` on the key iterator. -/
def firstKeyAbove {α : Type} (m : TMap α) (t : Timestamp) : Option Timestamp :=
  ((m.filter (fun p => decide (t < p.1))).head?).map Prod.fst

/-- The entries with keys `≤ t`, in order, as `m.range(..=t)`. -/
def rangeLe {α : Type} (m : TMap α) (t : Timestamp) : TMap α :=
  m.filter (fun p => decide (p.1 ≤ t))

/-- The entries with keys in `[lo, hi)`, in order, as `m.range(lo..hi)`. -/
def rangeCO {α : Type} (m : TMap α) (lo hi : Timestamp) : TMap α :=
  m.filter (fun p => decide (lo ≤ p.1 ∧ p.1 < hi))

end TMap

/-- The value `it.nth_back(n)` of a double-ended iterator over `l` that has
not yet been consumed: the element `n` positions from the back, if any. -/
def nthBack {α : Type} (l : List α) (n : Nat) : Option α :=
  l.reverse[n]?

/-- The access-context label; `AccessContext` in src/dataflow/state.rs. -/
inductive AccessContext : Type
  | Operator
  | Callback
  | WatermarkCallback
deriving DecidableEq

/-- An access-control error, `AccessError(&'static str)`: carries the
diagnostic tag. -/
structure AccessError : Type where
  tag : String
deriving DecidableEq

/-- The outcome of an operation whose Rust implementation may panic (an
`expect`/`unwrap` on a missing history entry). -/
inductive PanicOr (α : Type) : Type
  | panicked
  | ok (val : α)
deriving DecidableEq

/-- The time-versioned operator state, `TimeVersionedState<S, T>` in
src/dataflow/state.rs. -/
structure TimeVersionedState (S T : Type) : Type where
  current_time : Timestamp
  history_size : Nat
  access_context : AccessContext
  message_history : TMap (List T)
  state_history : TMap S
deriving DecidableEq

namespace TimeVersionedState

variable {S T : Type}

/-- Constructor `TimeVersionedState::new_with_history_size`. -/
def new_with_history_size (history_size : Nat) : TimeVersionedState S T :=
  { current_time := Timestamp.bottom
    history_size := history_size
    access_context := AccessContext.Operator
    message_history := []
    state_history := [] }

/-- Constructor `TimeVersionedState::new`. -/
def new : TimeVersionedState S T :=
  new_with_history_size 0

/-- Crate-internal `set_access_context`. -/
def set_access_context (st : TimeVersionedState S T) (ctx : AccessContext) :
    TimeVersionedState S T :=
  { st with access_context := ctx }

/-- Crate-internal `set_current_time`: advances the current timestamp and
initializes both histories for it via `entry(..).or_default()`. -/
def set_current_time [Inhabited S] (st : TimeVersionedState S T) (t : Timestamp) :
    TimeVersionedState S T :=
  { st with
    current_time := t
    message_history := st.message_history.entryOrDefault t
    state_history := st.state_history.entryOrDefault t }

/-- Crate-internal `close_time`: garbage collection after the watermark
callback for `t` completes. Messages with keys `≤ t` are released; states are
released up to the split point chosen by the `history_size` branch. -/
def close_time (st : TimeVersionedState S T) (t : Timestamp) :
    TimeVersionedState S T :=
  let message_history := (st.message_history.splitOff t).remove t
  let split_option : Option Timestamp :=
    if st.history_size = 0 then
      st.state_history.firstKeyAbove t
    else
      nthBack ((st.state_history.rangeLe t).map Prod.fst) (st.history_size - 1)
  let state_history :=
    match split_option with
    | some split_t => st.state_history.splitOff split_t
    | none => st.state_history
  { st with message_history := message_history, state_history := state_history }

/-- Operation `set_history_size`: permitted only in the `Operator` context. -/
def set_history_size (st : TimeVersionedState S T) (history_size : Nat) :
    Except AccessError (TimeVersionedState S T) :=
  match st.access_context with
  | AccessContext.Operator => Except.ok { st with history_size := history_size }
  | AccessContext.Callback =>
      Except.error ⟨"Attempted to set_history_size from callback"⟩
  | AccessContext.WatermarkCallback =>
      Except.error ⟨"Attempted to set_history_size from watermark callback"⟩

/-- Operation `set_initial_state`: permitted only in the `Operator` context;
stores the state at `Timestamp::bottom`. -/
def set_initial_state (st : TimeVersionedState S T) (initial_state : S) :
    Except AccessError (TimeVersionedState S T) :=
  match st.access_context with
  | AccessContext.Operator =>
      Except.ok
        { st with
          state_history := st.state_history.insertSorted Timestamp.bottom initial_state }
  | AccessContext.Callback =>
      Except.error ⟨"Attempted to set_initial_state from callback"⟩
  | AccessContext.WatermarkCallback =>
      Except.error ⟨"Attempted to set_initial_state from watermark callback"⟩

/-- Operation `append`: permitted only in the `Callback` context. The source
unwraps the message-history entry for the current time (`expect`), so a
missing entry is a panic, not an error. -/
def append (st : TimeVersionedState S T) (data : T) :
    PanicOr (Except AccessError (TimeVersionedState S T)) :=
  match st.access_context with
  | AccessContext.Operator =>
      PanicOr.ok (Except.error ⟨"Attempted to append from Operator::new"⟩)
  | AccessContext.Callback =>
      match st.message_history.find st.current_time with
      | none => PanicOr.panicked
      | some msgs =>
          PanicOr.ok
            (Except.ok
              { st with
                message_history :=
                  st.message_history.insertSorted st.current_time (msgs ++ [data]) })
  | AccessContext.WatermarkCallback =>
      PanicOr.ok (Except.error ⟨"Attempted to append from a watermark callback"⟩)

/-- Operation `get_current_messages`: permitted only in the
`WatermarkCallback` context; panics when the entry is missing. -/
def get_current_messages (st : TimeVersionedState S T) :
    PanicOr (Except AccessError (List T)) :=
  match st.access_context with
  | AccessContext.Operator =>
      PanicOr.ok (Except.error ⟨"Attempted to get_current_messages from Operator::new"⟩)
  | AccessContext.WatermarkCallback =>
      match st.message_history.find st.current_time with
      | none => PanicOr.panicked
      | some msgs => PanicOr.ok (Except.ok msgs)
  | AccessContext.Callback =>
      PanicOr.ok
        (Except.error ⟨"Attempted to get_current_messages from a non-watermark callback"⟩)

/-- Operation `get_state`: permitted only in the `WatermarkCallback` context.
Mirrors the source: for `t ≤ current_time` it takes the map range
`[t, current_time)` and calls `nth_back(history_size)` on it to find the
oldest allowed key. -/
def get_state (st : TimeVersionedState S T) (t : Timestamp) :
    Except AccessError (Option S) :=
  match st.access_context with
  | AccessContext.Operator =>
      Except.error ⟨"Attempted to get_state from Operator::new"⟩
  | AccessContext.WatermarkCallback =>
      if t ≤ st.current_time then
        match nthBack (st.state_history.rangeCO t st.current_time) st.history_size with
        | some oldest_allowed =>
            if oldest_allowed.1 ≤ t then Except.ok (st.state_history.find t)
            else Except.ok none
        | none => Except.ok (st.state_history.find t)
      else Except.ok none
  | AccessContext.Callback =>
      Except.error ⟨"Attempted to get_state from a non-watermark callback"⟩

/-- Operation `get_current_state`: permitted only in the `WatermarkCallback`
context; panics when the entry is missing. -/
def get_current_state (st : TimeVersionedState S T) :
    PanicOr (Except AccessError S) :=
  match st.access_context with
  | AccessContext.Operator =>
      PanicOr.ok (Except.error ⟨"Attempted to get_current_state from Operator::new"⟩)
  | AccessContext.WatermarkCallback =>
      match st.state_history.find st.current_time with
      | none => PanicOr.panicked
      | some s => PanicOr.ok (Except.ok s)
  | AccessContext.Callback =>
      PanicOr.ok
        (Except.error ⟨"Attempted to get_current_state from a non-watermark callback"⟩)

/-- Operation `get_current_state_mut`: same gating and panics as
`get_current_state`; the value returned models the target of the mutable
reference. -/
def get_current_state_mut (st : TimeVersionedState S T) :
    PanicOr (Except AccessError S) :=
  match st.access_context with
  | AccessContext.Operator =>
      PanicOr.ok (Except.error ⟨"Attempted to get_current_state_mut from Operator::new"⟩)
  | AccessContext.WatermarkCallback =>
      match st.state_history.find st.current_time with
      | none => PanicOr.panicked
      | some s => PanicOr.ok (Except.ok s)
  | AccessContext.Callback =>
      PanicOr.ok
        (Except.error ⟨"Attempted to get_current_state_mut from a non-watermark callback"⟩)

/-- Operation `iter_states`: permitted only in the `WatermarkCallback`
context. Mirrors the source iterator: the entries with keys `≤ current_time`,
reversed, enumerated, filtered to indices `< history_size`. -/
def iter_states (st : TimeVersionedState S T) :
    Except AccessError (List (Timestamp × S)) :=
  match st.access_context with
  | AccessContext.Operator =>
      Except.error ⟨"Attempted to iter_states from Operator::new"⟩
  | AccessContext.Callback =>
      Except.error ⟨"Attempted to iter_states from a non-watermark callback"⟩
  | AccessContext.WatermarkCallback =>
      Except.ok
        (((st.state_history.rangeLe st.current_time).reverse.enum.filter
            (fun x => decide (x.1 < st.history_size))).map Prod.snd)

end TimeVersionedState

/-- The message type on a stream; `Message<D>` in src/dataflow/message.rs
(not part of the sources). Modelled from the spec: a tagged union of
timestamped data and watermarks. -/
inductive Message (D : Type) : Type
  | TimestampedData (timestamp : Timestamp) (data : D)
  | Watermark (t : Timestamp)
deriving DecidableEq

namespace Message

variable {D : Type}

/-- The timestamp carried by a message. -/
def timestamp : Message D → Timestamp
  | TimestampedData t _ => t
  | Watermark t => t

/-- Modelled from the spec: `Message::is_top_watermark` holds exactly of a
watermark equal to the top timestamp. -/
def is_top_watermark : Message D → Bool
  | TimestampedData _ _ => false
  | Watermark t => decide (t = Timestamp.top)

end Message

/-- Errors surfaced by a write stream; `WriteStreamError` in
src/dataflow/stream/errors.rs (not part of the sources). Modelled from the
spec error kinds together with the variants named by write_stream.rs:
`Closed` (StreamClosed), `TimestampError` (TimestampViolation) and the
per-endpoint transport failure propagated from the pusher. -/
inductive WriteStreamError : Type
  | TimestampError
  | Closed
  | EndpointError
deriving DecidableEq

/-- A notification broadcast on the stream notification bus;
`NotificationType` in src/deadlines.rs (not part of the sources). Modelled
from the spec: `SentData`/`SentWatermark` carry the stream id and the message
timestamp. The wall-clock `Instant` attached by the source is real time and
is not modelled. -/
inductive NotificationType : Type
  | SentData (id : Nat) (t : Timestamp)
  | SentWatermark (id : Nat) (t : Timestamp)
deriving DecidableEq

/-- The notification `send` emits for a message: `SentData` for timestamped
data and `SentWatermark` for watermarks, with the stream id and timestamp. -/
def notifFor {D : Type} (id : Nat) (msg : Message D) : NotificationType :=
  match msg with
  | Message.TimestampedData _ _ => NotificationType.SentData id msg.timestamp
  | Message.Watermark _ => NotificationType.SentWatermark id msg.timestamp

/-- The producer-side stream endpoint, `WriteStream<D>` in
src/dataflow/stream/write_stream.rs. The pusher (an external collaborator) is
modelled by the ordered log of messages successfully handed to it; `None`
after the stream closes, as in the source. The broadcast channel itself keeps
no modelled state; the notifications emitted by a call are returned by
`send`. -/
structure WriteStream (D : Type) : Type where
  id : Nat
  name : String
  pusher : Option (List (Message D))
  low_watermark : Timestamp
  stream_closed : Bool
deriving DecidableEq

namespace WriteStream

variable {D : Type}

/-- Constructor `WriteStream::new_internal`: an open stream whose low
watermark starts at `Timestamp::new(vec![0])`. -/
def new_internal (id : Nat) (name : String) : WriteStream D :=
  { id := id
    name := name
    pusher := some []
    low_watermark := Timestamp.new [0]
    stream_closed := false }

/-- Constructor `WriteStream::new`; the deterministic id generation is an
external collaborator, so the id is a parameter. -/
def new (id : Nat) : WriteStream D :=
  new_internal id (toString id)

/-- Constructor `WriteStream::new_with_name`. -/
def new_with_name (id : Nat) (name : String) : WriteStream D :=
  new_internal id name

/-- Constructor `WriteStream::new_with_id`. -/
def new_with_id (id : Nat) : WriteStream D :=
  new_internal id (toString id)

/-- Observer `WriteStream::is_closed`. -/
def is_closed (ws : WriteStream D) : Bool :=
  ws.stream_closed

/-- Private `WriteStream::close_stream`: marks the stream closed and drops
the pusher. -/
def close_stream (ws : WriteStream D) : WriteStream D :=
  { ws with stream_closed := true, pusher := none }

/-- Private `WriteStream::update_watermark`: rejects any message whose
timestamp is below the low watermark and advances the low watermark on an
accepted watermark. -/
def update_watermark (ws : WriteStream D) (msg : Message D) :
    Except WriteStreamError (WriteStream D) :=
  match msg with
  | Message.TimestampedData ts _ =>
      if ts < ws.low_watermark then Except.error WriteStreamError.TimestampError
      else Except.ok ws
  | Message.Watermark ts =>
      if ts < ws.low_watermark then Except.error WriteStreamError.TimestampError
      else Except.ok { ws with low_watermark := ts }

/-- The observable outcome of one `send` call: the returned result, the
stream state afterwards, and the notifications emitted on the bus during the
call. -/
structure SendOutcome (D : Type) : Type where
  result : Except WriteStreamError Unit
  stream : WriteStream D
  notifications : List NotificationType
deriving DecidableEq

/-- Operation `WriteStreamT::send`, following the source order: closed check,
top-watermark flag, notification emission, monotonicity validation and
watermark update, pusher fan-out, close transition. The success or failure of
the external pusher is the input `pusherOk`. -/
def send (ws : WriteStream D) (msg : Message D) (pusherOk : Bool) : SendOutcome D :=
  if ws.stream_closed then
    { result := Except.error WriteStreamError.Closed, stream := ws, notifications := [] }
  else
    let close_stream_flag := msg.is_top_watermark
    let notif := notifFor ws.id msg
    match ws.update_watermark msg with
    | Except.error e =>
        { result := Except.error e, stream := ws, notifications := [notif] }
    | Except.ok ws1 =>
        match ws1.pusher with
        | some log =>
            if pusherOk then
              let ws2 := { ws1 with pusher := some (log ++ [msg]) }
              { result := Except.ok ()
                stream := if close_stream_flag then ws2.close_stream else ws2
                notifications := [notif] }
            else
              { result := Except.error WriteStreamError.EndpointError
                stream := ws1
                notifications := [notif] }
        | none =>
            { result := Except.ok ()
              stream := if close_stream_flag then ws1.close_stream else ws1
              notifications := [notif] }

/-- The low-watermark values observed after each send of a sequence. -/
def lwTrace (ws : WriteStream D) : List (Message D × Bool) → List Timestamp
  | [] => []
  | (m, b) :: ops =>
      let o := ws.send m b
      o.stream.low_watermark :: lwTrace o.stream ops

/-- The results returned by each send of a sequence. -/
def sendResults (ws : WriteStream D) :
    List (Message D × Bool) → List (Except WriteStreamError Unit)
  | [] => []
  | (m, b) :: ops =>
      let o := ws.send m b
      o.result :: sendResults o.stream ops

end WriteStream

/-- Modelled from the spec: the message metadata (the routing envelope) of
src/communication/mod.rs, which is not part of the sources. It is represented
by the stream id; the codec treats the whole envelope opaquely through the
serializer, so any further routing tags behave identically. -/
structure MessageMetadata : Type where
  stream_id : Nat
deriving DecidableEq

/-- The inter-process message, `InterProcessMessage` in
src/communication/mod.rs (not part of the sources). Modelled from the spec:
`Deserialized` carries metadata plus a typed payload (modelled as the list of
its elements); `Serialized` carries metadata plus opaque payload bytes. -/
inductive InterProcessMessage : Type
  | Deserialized (metadata : MessageMetadata) (data : List Nat)
  | Serialized (metadata : MessageMetadata) (bytes : List Nat)
deriving DecidableEq

/-- Errors raised by the codec; `CodecError` in src/communication/mod.rs (not
part of the sources). Modelled from the spec error kinds: a metadata
(de)serialization failure, an io failure, and the `EncoderMisuse` kind the
spec prescribes for encoding an already-serialized message. -/
inductive CodecError : Type
  | BincodeError
  | IoFailure
  | EncoderMisuse
deriving DecidableEq

/-- Little-endian base-256 encoding of `n` into exactly `k` bytes. -/
def natToBytesLE : Nat → Nat → List Nat
  | 0, _ => []
  | k + 1, n => n % 256 :: natToBytesLE k (n / 256)

/-- Little-endian base-256 decoding. -/
def bytesToNatLE : List Nat → Nat
  | [] => 0
  | b :: bs => b + 256 * bytesToNatLE bs

/-- The four big-endian bytes written for a length header field:
`write_u32::<NetworkEndian>(len as u32)`, including the `as u32`
truncation. -/
def writeU32BE (n : Nat) : List Nat :=
  (natToBytesLE 4 (n % 2 ^ 32)).reverse

/-- The value read by `NetworkEndian::read_u32` from four bytes. -/
def readU32BE (bs : List Nat) : Nat :=
  bytesToNatLE bs.reverse

/-- Modelled from the spec: the deterministic serialization of the metadata
envelope (the source delegates to `bincode::serialize`, an external
collaborator); a fixed-width little-endian record. -/
def bincodeSerializeMetadata (m : MessageMetadata) : List Nat :=
  natToBytesLE 8 m.stream_id

/-- Modelled from the spec: the metadata deserialization used by the decoder
(the source delegates to `bincode::deserialize`); rejects buffers of the
wrong shape with a `BincodeError`. -/
def bincodeDeserializeMetadata (bs : List Nat) : Except CodecError MessageMetadata :=
  if bs.length = 8 then Except.ok ⟨bytesToNatLE bs⟩
  else Except.error CodecError.BincodeError

/-- Modelled from the spec: the payload serialization `Data::encode` of the
stream element type (an external collaborator); each element is serialized to
a fixed-width little-endian word. -/
def dataEncode : List Nat → List Nat
  | [] => []
  | x :: xs => natToBytesLE 8 x ++ dataEncode xs

/-- The decoder state machine states, `DecodeStatus` in
src/communication/message_codec.rs. -/
inductive DecodeStatus : Type
  | Header
  | Metadata (metadata_size : Nat) (data_size : Nat)
  | Data (data_size : Nat)
deriving DecidableEq

/-- The codec, `MessageCodec` in src/communication/message_codec.rs. -/
structure MessageCodec : Type where
  status : DecodeStatus
  msg_metadata : Option MessageMetadata
deriving DecidableEq

namespace MessageCodec

/-- Constructor `MessageCodec::new`. -/
def new : MessageCodec :=
  { status := DecodeStatus.Header, msg_metadata := none }

end MessageCodec

/-- The outcome of `Encoder::encode` on a buffer: the extended buffer, an
error, or a panic (the `unreachable!` arm for `Serialized` inputs and the
`unwrap` on payload serialization). -/
inductive EncodeResult : Type
  | panicked
  | ok (buf : List Nat)
  | err (e : CodecError)
deriving DecidableEq

/-- Operation `Encoder::encode` of src/communication/message_codec.rs: a
`Serialized` input hits `unreachable!` and panics; a `Deserialized` input
appends the 8-byte header, the serialized metadata and the serialized payload
to the buffer. The modelled metadata and payload serializers are total, so
their error and unwrap paths are never taken. -/
def encode (msg : InterProcessMessage) (buf : List Nat) : EncodeResult :=
  match msg with
  | InterProcessMessage.Serialized _ _ => EncodeResult.panicked
  | InterProcessMessage.Deserialized metadata data =>
      let metadata_serialized := bincodeSerializeMetadata metadata
      let data_serialized := dataEncode data
      EncodeResult.ok
        (buf ++ writeU32BE metadata_serialized.length ++
          writeU32BE data_serialized.length ++ metadata_serialized ++ data_serialized)

/-- The outcome of `Decoder::decode`: a panic (the `unwrap` of the stashed
metadata), an error with the codec state and buffer at the failure point, or
`Ok` carrying the optional message, the codec state and the remaining
buffer. -/
inductive DecodeResult : Type
  | panicked
  | err (e : CodecError) (codec : MessageCodec) (buf : List Nat)
  | ok (msg : Option InterProcessMessage) (codec : MessageCodec) (buf : List Nat)
deriving DecidableEq

/-- The `DecodeStatus::Data` arm of `decode`: with enough bytes buffered,
split off the payload, emit the `Serialized` message (panicking if no
metadata was stashed) and return to `Header`; otherwise make no progress. -/
def decodeData (mm : Option MessageMetadata) (data_size : Nat) (buf : List Nat) :
    DecodeResult :=
  if data_size ≤ buf.length then
    match mm with
    | none => DecodeResult.panicked
    | some metadata =>
        DecodeResult.ok
          (some (InterProcessMessage.Serialized metadata (buf.take data_size)))
          MessageCodec.new (buf.drop data_size)
  else DecodeResult.ok none ⟨DecodeStatus.Data data_size, mm⟩ buf

/-- The `DecodeStatus::Metadata` arm of `decode`: with enough bytes buffered,
split off and deserialize the metadata, stash it and continue in the `Data`
state on the rest of the buffer; a deserialization failure is surfaced with
the bytes already consumed. -/
def decodeMetadata (mm : Option MessageMetadata) (metadata_size data_size : Nat)
    (buf : List Nat) : DecodeResult :=
  if metadata_size ≤ buf.length then
    match bincodeDeserializeMetadata (buf.take metadata_size) with
    | Except.error e =>
        DecodeResult.err e ⟨DecodeStatus.Metadata metadata_size data_size, mm⟩
          (buf.drop metadata_size)
    | Except.ok metadata =>
        decodeData (some metadata) data_size (buf.drop metadata_size)
  else DecodeResult.ok none ⟨DecodeStatus.Metadata metadata_size data_size, mm⟩ buf

/-- The `DecodeStatus::Header` arm of `decode`: with at least eight bytes
buffered, read the two big-endian sizes and continue in the `Metadata` state
on the rest of the buffer. -/
def decodeHeader (mm : Option MessageMetadata) (buf : List Nat) : DecodeResult :=
  if 8 ≤ buf.length then
    let header := buf.take 8
    let metadata_size := readU32BE (header.take 4)
    let data_size := readU32BE (header.drop 4)
    decodeMetadata mm metadata_size data_size (buf.drop 8)
  else DecodeResult.ok none ⟨DecodeStatus.Header, mm⟩ buf

/-- Operation `Decoder::decode` of src/communication/message_codec.rs,
dispatching on the codec status; the source's tail-recursive self-calls after
a status change are unrolled into the three arm functions. -/
def decode (c : MessageCodec) (buf : List Nat) : DecodeResult :=
  match c.status with
  | DecodeStatus.Header => decodeHeader c.msg_metadata buf
  | DecodeStatus.Metadata m d => decodeMetadata c.msg_metadata m d buf
  | DecodeStatus.Data d => decodeData c.msg_metadata d buf

/-- The number of state-history keys strictly between `t` and `c`. -/
def betweenCount {α : Type} (m : TMap α) (t c : Timestamp) : Nat :=
  (m.filter (fun p => decide (t < p.1 ∧ p.1 < c))).length

/-- The eight public operations of `TimeVersionedState` that are gated by the
access context. -/
inductive StateOp : Type
  | set_history_size
  | set_initial_state
  | append
  | get_current_messages
  | get_state
  | get_current_state
  | get_current_state_mut
  | iter_states
deriving DecidableEq

/-- The permission table of the access-context gate: `Operator` permits the
two configuration operations, `Callback` permits `append`, and
`WatermarkCallback` permits the five read/mutate/iterate operations. -/
def permitted : StateOp → AccessContext → Bool
  | StateOp.set_history_size, AccessContext.Operator => true
  | StateOp.set_initial_state, AccessContext.Operator => true
  | StateOp.append, AccessContext.Callback => true
  | StateOp.get_current_messages, AccessContext.WatermarkCallback => true
  | StateOp.get_state, AccessContext.WatermarkCallback => true
  | StateOp.get_current_state, AccessContext.WatermarkCallback => true
  | StateOp.get_current_state_mut, AccessContext.WatermarkCallback => true
  | StateOp.iter_states, AccessContext.WatermarkCallback => true
  | _, _ => false

/-- The diagnostic tag carried by the `AccessError` of each denied
operation/context combination, as written in src/dataflow/state.rs; unused
(empty) for permitted combinations. -/
def accessTag : StateOp → AccessContext → String
  | StateOp.set_history_size, AccessContext.Callback =>
      "Attempted to set_history_size from callback"
  | StateOp.set_history_size, AccessContext.WatermarkCallback =>
      "Attempted to set_history_size from watermark callback"
  | StateOp.set_initial_state, AccessContext.Callback =>
      "Attempted to set_initial_state from callback"
  | StateOp.set_initial_state, AccessContext.WatermarkCallback =>
      "Attempted to set_initial_state from watermark callback"
  | StateOp.append, AccessContext.Operator =>
      "Attempted to append from Operator::new"
  | StateOp.append, AccessContext.WatermarkCallback =>
      "Attempted to append from a watermark callback"
  | StateOp.get_current_messages, AccessContext.Operator =>
      "Attempted to get_current_messages from Operator::new"
  | StateOp.get_current_messages, AccessContext.Callback =>
      "Attempted to get_current_messages from a non-watermark callback"
  | StateOp.get_state, AccessContext.Operator =>
      "Attempted to get_state from Operator::new"
  | StateOp.get_state, AccessContext.Callback =>
      "Attempted to get_state from a non-watermark callback"
  | StateOp.get_current_state, AccessContext.Operator =>
      "Attempted to get_current_state from Operator::new"
  | StateOp.get_current_state, AccessContext.Callback =>
      "Attempted to get_current_state from a non-watermark callback"
  | StateOp.get_current_state_mut, AccessContext.Operator =>
      "Attempted to get_current_state_mut from Operator::new"
  | StateOp.get_current_state_mut, AccessContext.Callback =>
      "Attempted to get_current_state_mut from a non-watermark callback"
  | StateOp.iter_states, AccessContext.Operator =>
      "Attempted to iter_states from Operator::new"
  | StateOp.iter_states, AccessContext.Callback =>
      "Attempted to iter_states from a non-watermark callback"
  | _, _ => ""

/-- The classification of an operation invocation: it succeeded, it was
denied with an `AccessViolation` carrying a tag, or it panicked. -/
inductive OpOutcome : Type
  | ok
  | accessViolation (tag : String)
  | panicked
deriving DecidableEq

/-- Runs one gated operation of `TimeVersionedState` (with argument values
`t`, `n`, `s`, `d` for the operations that take them) and classifies the
outcome. -/
def classify {S T : Type} (st : TimeVersionedState S T) (op : StateOp)
    (t : Timestamp) (n : Nat) (s : S) (d : T) : OpOutcome :=
  match op with
  | StateOp.set_history_size =>
      match st.set_history_size n with
      | Except.ok _ => OpOutcome.ok
      | Except.error e => OpOutcome.accessViolation e.tag
  | StateOp.set_initial_state =>
      match st.set_initial_state s with
      | Except.ok _ => OpOutcome.ok
      | Except.error e => OpOutcome.accessViolation e.tag
  | StateOp.append =>
      match st.append d with
      | PanicOr.panicked => OpOutcome.panicked
      | PanicOr.ok (Except.ok _) => OpOutcome.ok
      | PanicOr.ok (Except.error e) => OpOutcome.accessViolation e.tag
  | StateOp.get_current_messages =>
      match st.get_current_messages with
      | PanicOr.panicked => OpOutcome.panicked
      | PanicOr.ok (Except.ok _) => OpOutcome.ok
      | PanicOr.ok (Except.error e) => OpOutcome.accessViolation e.tag
  | StateOp.get_state =>
      match st.get_state t with
      | Except.ok _ => OpOutcome.ok
      | Except.error e => OpOutcome.accessViolation e.tag
  | StateOp.get_current_state =>
      match st.get_current_state with
      | PanicOr.panicked => OpOutcome.panicked
      | PanicOr.ok (Except.ok _) => OpOutcome.ok
      | PanicOr.ok (Except.error e) => OpOutcome.accessViolation e.tag
  | StateOp.get_current_state_mut =>
      match st.get_current_state_mut with
      | PanicOr.panicked => OpOutcome.panicked
      | PanicOr.ok (Except.ok _) => OpOutcome.ok
      | PanicOr.ok (Except.error e) => OpOutcome.accessViolation e.tag
  | StateOp.iter_states =>
      match st.iter_states with
      | Except.ok _ => OpOutcome.ok
      | Except.error e => OpOutcome.accessViolation e.tag

/-! Theorems. -/

/-- C6, counterexample: encoding a concrete `Serialized` message panics (the
`unreachable!` arm) instead of returning an `EncoderMisuse` error to the
caller, so the claimed behavior is false at this input. -/
theorem encode_serialized_cex :
    encode (InterProcessMessage.Serialized ⟨7⟩ [1, 2]) [] = EncodeResult.panicked ∧
      EncodeResult.panicked ≠ EncodeResult.err CodecError.EncoderMisuse := by
  exact ⟨rfl, by decide⟩

/-- C6, amended: for every `Serialized` inter-process message given as input,
the encoder panics via `unreachable!` (aborting rather than returning an
`EncoderMisuse` error or succeeding). -/
theorem encode_serialized_panics :
    ∀ (md : MessageMetadata) (bytes buf : List Nat),
      encode (InterProcessMessage.Serialized md bytes) buf = EncodeResult.panicked := by
  intro md bytes buf
  rfl

/-- C9: every freshly constructed write stream (`new`, `new_with_name`,
`new_with_id`) has its low watermark initialized to the single-coordinate
timestamp `[0]`, which is not the bottom timestamp; consequently a send of
timestamped data with a timestamp lexicographically below `[0]` (such as
bottom) on a fresh stream fails with a timestamp violation. -/
theorem initial_low_watermark :
    ∀ (D : Type) (id : Nat) (name : String),
      (WriteStream.new (D := D) id).low_watermark = Timestamp.new [0] ∧
      (WriteStream.new_with_name (D := D) id name).low_watermark = Timestamp.new [0] ∧
      (WriteStream.new_with_id (D := D) id).low_watermark = Timestamp.new [0] ∧
      Timestamp.new [0] ≠ Timestamp.bottom ∧
      ∀ (ts : Timestamp) (d : D) (b : Bool), ts < Timestamp.new [0] →
        ((WriteStream.new (D := D) id).send (Message.TimestampedData ts d) b).result =
          Except.error WriteStreamError.TimestampError := by
  intro D id name
  refine ⟨rfl, rfl, rfl, by decide, ?_⟩
  intro ts d b h
  simp only [WriteStream.send, WriteStream.new, WriteStream.new_internal,
    WriteStream.update_watermark]
  rw [if_neg (by exact Bool.false_ne_true), if_pos h]

/-- C9, witness: the fresh stream rejects data at the bottom timestamp. -/
theorem initial_low_watermark_witness :
    ((WriteStream.new (D := Nat) 0).send
        (Message.TimestampedData Timestamp.bottom 5) true).result =
      Except.error WriteStreamError.TimestampError :=
  (initial_low_watermark Nat 0 "").2.2.2.2 Timestamp.bottom 5 true (by decide)

/-- C10: in `Callback` context, `append` panics (it unwraps the
message-history entry of the current time) whenever that entry is missing,
as it is immediately after construction; when the entry is present, as
`set_current_time` guarantees, `append` returns `Ok` and pushes the datum. -/
theorem append_panic_behavior :
    (∀ (S T : Type) (st : TimeVersionedState S T) (d : T),
        st.access_context = AccessContext.Callback →
        st.message_history.find st.current_time = none →
        st.append d = PanicOr.panicked) ∧
    (∀ (S T : Type) (st : TimeVersionedState S T) (d : T) (msgs : List T),
        st.access_context = AccessContext.Callback →
        st.message_history.find st.current_time = some msgs →
        st.append d =
          PanicOr.ok (Except.ok
            { st with
              message_history :=
                st.message_history.insertSorted st.current_time (msgs ++ [d]) })) ∧
    (∀ (d : Nat),
        ((TimeVersionedState.new (S := Nat) (T := Nat)).set_access_context
            AccessContext.Callback).append d = PanicOr.panicked) := by
  refine ⟨?_, ?_, ?_⟩
  · intro S T st d hctx hfind
    simp only [TimeVersionedState.append, hctx, hfind]
  · intro S T st d msgs hctx hfind
    simp only [TimeVersionedState.append, hctx, hfind]
  · intro d
    rfl

/-- C10, witness: at a concrete freshly constructed state in callback
context the entry is missing and `append` panics; at a concrete state where
`set_current_time` ran, `append` returns `Ok`. -/
theorem append_panic_behavior_witness :
    ((TimeVersionedState.new (S := Nat) (T := Nat)).set_access_context
        AccessContext.Callback).append 3 = PanicOr.panicked ∧
    (((TimeVersionedState.new (S := Nat) (T := Nat)).set_current_time
          (Timestamp.new [1])).set_access_context AccessContext.Callback).append 3 =
      PanicOr.ok (Except.ok
        { (((TimeVersionedState.new (S := Nat) (T := Nat)).set_current_time
              (Timestamp.new [1])).set_access_context AccessContext.Callback) with
          message_history :=
            ((((TimeVersionedState.new (S := Nat) (T := Nat)).set_current_time
                (Timestamp.new [1])).set_access_context
                AccessContext.Callback)).message_history.insertSorted
              (Timestamp.new [1]) ([] ++ [3]) }) := by
  constructor
  · exact append_panic_behavior.1 Nat Nat _ 3 rfl (by decide)
  · exact append_panic_behavior.2.1 Nat Nat _ 3 [] rfl (by decide)

/-- On a closed stream, `send` returns the `Closed` error and leaves the
stream untouched, emitting nothing. -/
lemma send_closed {D : Type} (ws : WriteStream D) (msg : Message D) (b : Bool)
    (h : ws.stream_closed = true) :
    ws.send msg b =
      { result := Except.error WriteStreamError.Closed, stream := ws,
        notifications := [] } := by
  simp only [WriteStream.send, h, if_true]

/-- An accepted message never decreases the low watermark. -/
lemma update_watermark_ok_lw {D : Type} (ws ws1 : WriteStream D) (msg : Message D)
    (h : ws.update_watermark msg = Except.ok ws1) :
    ws.low_watermark ≤ ws1.low_watermark := by
  cases msg with
  | TimestampedData ts d =>
    simp only [WriteStream.update_watermark] at h
    split at h
    · exact absurd h (by simp)
    · obtain rfl : ws = ws1 := by injection h
      exact le_refl _
  | Watermark ts =>
    simp only [WriteStream.update_watermark] at h
    split at h
    · exact absurd h (by simp)
    · obtain rfl : { ws with low_watermark := ts } = ws1 := by injection h
      next hts => exact not_lt.mp hts

/-- One `send` never decreases the low watermark. -/
lemma send_lw_mono {D : Type} (ws : WriteStream D) (msg : Message D) (b : Bool) :
    ws.low_watermark ≤ (ws.send msg b).stream.low_watermark := by
  simp only [WriteStream.send]
  split
  · exact le_refl _
  · split
    · exact le_refl _
    · next ws1 heq =>
      have hlw := update_watermark_ok_lw ws ws1 msg heq
      split
      · split
        · split
          · simpa [WriteStream.close_stream] using hlw
          · simpa using hlw
        · simpa using hlw
      · split
        · simpa [WriteStream.close_stream] using hlw
        · simpa using hlw

/-- C4: low watermarks are monotone. The trace of low-watermark values over
any finite sequence of sends is non-decreasing; on an open stream, a send of
data or a watermark timestamped strictly below the low watermark fails with
the timestamp violation and leaves the stream (hence the low watermark)
unchanged; and a watermark at or above the low watermark advances the low
watermark to its timestamp. -/
theorem watermark_monotonicity :
    (∀ (D : Type) (ws : WriteStream D) (ops : List (Message D × Bool)),
        List.Chain' (· ≤ ·) (ws.low_watermark :: WriteStream.lwTrace ws ops)) ∧
    (∀ (D : Type) (ws : WriteStream D) (msg : Message D) (b : Bool),
        ws.stream_closed = false → msg.timestamp < ws.low_watermark →
        (ws.send msg b).result = Except.error WriteStreamError.TimestampError ∧
        (ws.send msg b).stream = ws) ∧
    (∀ (D : Type) (ws : WriteStream D) (ts : Timestamp) (b : Bool),
        ws.stream_closed = false → ws.low_watermark ≤ ts →
        ((ws.send (Message.Watermark ts) b).stream.low_watermark = ts)) := by
  refine ⟨?_, ?_, ?_⟩
  · intro D ws ops
    induction ops generalizing ws with
    | nil => simp [WriteStream.lwTrace]
    | cons op ops ih =>
      obtain ⟨m, b⟩ := op
      rw [WriteStream.lwTrace, List.chain'_cons]
      exact ⟨send_lw_mono ws m b, ih ((ws.send m b).stream)⟩
  · intro D ws msg b hopen hlt
    cases msg with
    | TimestampedData ts d =>
      simp only [Message.timestamp] at hlt
      simp only [WriteStream.send, hopen, if_false, WriteStream.update_watermark,
        hlt, if_true]
      exact ⟨rfl, rfl⟩
    | Watermark ts =>
      simp only [Message.timestamp] at hlt
      simp only [WriteStream.send, hopen, if_false, WriteStream.update_watermark,
        hlt, if_true]
      exact ⟨rfl, rfl⟩
  · intro D ws ts b hopen hle
    have h1 : ws.update_watermark (Message.Watermark ts) =
        Except.ok { ws with low_watermark := ts } := by
      simp [WriteStream.update_watermark, not_lt.mpr hle]
    simp only [WriteStream.send, hopen, if_false, h1]
    split
    · next h2 => exact absurd h2 (by simp)
    · split
      · split
        · split <;> rfl
        · rfl
      · split <;> rfl

/-- C4, witness: on a fresh stream, a send of data at the bottom timestamp
(below the initial low watermark `[0]`) is rejected with the timestamp
violation and the stream is unchanged. -/
theorem watermark_monotonicity_witness :
    ((WriteStream.new (D := Nat) 1).send
          (Message.TimestampedData Timestamp.bottom 0) true).result =
        Except.error WriteStreamError.TimestampError ∧
      ((WriteStream.new (D := Nat) 1).send
          (Message.TimestampedData Timestamp.bottom 0) true).stream =
        WriteStream.new (D := Nat) 1 :=
  watermark_monotonicity.2.1 Nat (WriteStream.new 1)
    (Message.TimestampedData Timestamp.bottom 0) true rfl (by decide)

/-- C5: close terminality. A successful send of a top watermark leaves the
stream closed; on a closed stream every send (of any message) fails with the
`Closed` error and leaves the stream unchanged, so the closed state is
terminal and every element of the result sequence of any subsequent send
sequence is the `Closed` error. -/
theorem close_terminality :
    (∀ (D : Type) (ws : WriteStream D) (msg : Message D) (b : Bool),
        msg.is_top_watermark = true → (ws.send msg b).result = Except.ok () →
        (ws.send msg b).stream.is_closed = true) ∧
    (∀ (D : Type) (ws : WriteStream D) (msg : Message D) (b : Bool),
        ws.is_closed = true →
        (ws.send msg b).result = Except.error WriteStreamError.Closed ∧
        (ws.send msg b).stream = ws) ∧
    (∀ (D : Type) (ws : WriteStream D) (ops : List (Message D × Bool)),
        ws.is_closed = true →
        WriteStream.sendResults ws ops =
          ops.map (fun _ => Except.error WriteStreamError.Closed)) := by
  refine ⟨?_, ?_, ?_⟩
  · intro D ws msg b htop hok
    by_cases h : ws.stream_closed = true
    · rw [send_closed ws msg b h] at hok
      exact absurd hok (by simp)
    · simp only [WriteStream.send, h, if_false, htop] at hok ⊢
      cases hup : ws.update_watermark msg with
      | error e => simp [hup] at hok
      | ok ws1 =>
        simp only [hup] at hok ⊢
        cases hp : ws1.pusher with
        | none => simp [WriteStream.close_stream, WriteStream.is_closed]
        | some log =>
          cases b with
          | false => simp [hp] at hok
          | true => simp [hp, WriteStream.close_stream, WriteStream.is_closed]
  · intro D ws msg b h
    rw [send_closed ws msg b h]
    exact ⟨rfl, rfl⟩
  · intro D ws ops h
    induction ops with
    | nil => rfl
    | cons op ops ih =>
      obtain ⟨m, b⟩ := op
      rw [WriteStream.sendResults, send_closed ws m b h]
      simpa using ih

/-- C5, witness: sending the top watermark on a fresh stream succeeds and
closes it, and a subsequent send is rejected with the `Closed` error. -/
theorem close_terminality_witness :
    (((WriteStream.new (D := Nat) 2).send (Message.Watermark Timestamp.top)
          true).stream.is_closed = true) ∧
      ((((WriteStream.new (D := Nat) 2).send (Message.Watermark Timestamp.top)
            true).stream.send (Message.TimestampedData (Timestamp.new [3]) 4)
          false).result = Except.error WriteStreamError.Closed) := by
  constructor
  · exact close_terminality.1 Nat (WriteStream.new 2)
      (Message.Watermark Timestamp.top) true (by decide) (by decide)
  · exact (close_terminality.2.1 Nat _
      (Message.TimestampedData (Timestamp.new [3]) 4) false (by decide)).1

/-- C7, counterexample: a send rejected with the timestamp violation has
already emitted its `SentData` notification on the bus, because the source
emits the notification before validating monotonicity; so the claim that a
rejected send emits no notification is false at this input. -/
theorem rejected_send_notifies_cex :
    (((WriteStream.new (D := Nat) 0).send
          (Message.TimestampedData Timestamp.bottom 0) true).result =
        Except.error WriteStreamError.TimestampError) ∧
      (((WriteStream.new (D := Nat) 0).send
            (Message.TimestampedData Timestamp.bottom 0) true).notifications =
        [NotificationType.SentData 0 Timestamp.bottom]) ∧
      [NotificationType.SentData 0 Timestamp.bottom] ≠ [] := by
  exact ⟨by decide, by decide, by decide⟩

/-- C7, amended: a send that fails with the timestamp violation leaves the
stream state entirely unchanged (in particular the message is not handed to
any endpoint, since the pusher log is part of the state) but, contrary to the
claim, it does emit exactly the one corresponding `SentData`/`SentWatermark`
notification: in the send algorithm the notification emission precedes the
monotonicity validation, while the validation precedes fan-out. -/
theorem rejected_send_effects :
    ∀ (D : Type) (ws : WriteStream D) (msg : Message D) (b : Bool),
      (ws.send msg b).result = Except.error WriteStreamError.TimestampError →
      (ws.send msg b).stream = ws ∧
      (ws.send msg b).notifications = [notifFor ws.id msg] := by
  intro D ws msg b herr
  by_cases h : ws.stream_closed = true
  · rw [send_closed ws msg b h] at herr ⊢
    exact absurd herr (by simp)
  · simp only [WriteStream.send, h, if_false] at herr ⊢
    cases hup : ws.update_watermark msg with
    | error e => simp [hup]
    | ok ws1 =>
      simp only [hup] at herr ⊢
      cases hp : ws1.pusher with
      | none => simp [hp] at herr
      | some log =>
        cases b with
        | false => simp [hp] at herr
        | true => simp [hp] at herr

/-- C7, witness: the amended theorem applied at the counterexample input. -/
theorem rejected_send_effects_witness :
    (((WriteStream.new (D := Nat) 3).send
          (Message.TimestampedData Timestamp.bottom 7) false).stream =
        WriteStream.new (D := Nat) 3) ∧
      (((WriteStream.new (D := Nat) 3).send
            (Message.TimestampedData Timestamp.bottom 7) false).notifications =
        [notifFor 3 (Message.TimestampedData Timestamp.bottom 7)]) :=
  rejected_send_effects Nat (WriteStream.new 3)
    (Message.TimestampedData Timestamp.bottom 7) false (by decide)

/-- In the watermark-callback context `get_state` always returns `Ok`. -/
lemma get_state_wm_isOk {S T : Type} (st : TimeVersionedState S T) (t : Timestamp)
    (h : st.access_context = AccessContext.WatermarkCallback) :
    ∃ r, st.get_state t = Except.ok r := by
  simp only [TimeVersionedState.get_state, h]
  split
  · split
    · split
      · exact ⟨_, rfl⟩
      · exact ⟨_, rfl⟩
    · exact ⟨_, rfl⟩
  · exact ⟨_, rfl⟩

/-- C3: access gating. Whenever the histories are initialized for the
current time (as `set_current_time` guarantees), each of the eight gated
operations succeeds exactly when the permission table `permitted` marks it
permitted for the active context, and every other combination yields an
access violation carrying the diagnostic tag of that operation/context pair;
the outcome depends only on the context (and the table), never on the
caller. -/
theorem access_gating :
    ∀ (S T : Type) (st : TimeVersionedState S T) (op : StateOp) (t : Timestamp)
      (n : Nat) (s : S) (d : T),
      (st.message_history.find st.current_time).isSome = true →
      (st.state_history.find st.current_time).isSome = true →
      classify st op t n s d =
        if permitted op st.access_context then OpOutcome.ok
        else OpOutcome.accessViolation (accessTag op st.access_context) := by
  intro S T st op t n s d h1 h2
  obtain ⟨msgs, hm⟩ := Option.isSome_iff_exists.mp h1
  obtain ⟨s0, hs0⟩ := Option.isSome_iff_exists.mp h2
  cases op with
  | set_history_size =>
    cases hctx : st.access_context <;>
      simp [classify, permitted, accessTag, TimeVersionedState.set_history_size, hctx]
  | set_initial_state =>
    cases hctx : st.access_context <;>
      simp [classify, permitted, accessTag, TimeVersionedState.set_initial_state, hctx]
  | append =>
    cases hctx : st.access_context <;>
      simp [classify, permitted, accessTag, TimeVersionedState.append, hctx, hm]
  | get_current_messages =>
    cases hctx : st.access_context <;>
      simp [classify, permitted, accessTag, TimeVersionedState.get_current_messages,
        hctx, hm]
  | get_state =>
    cases hctx : st.access_context with
    | WatermarkCallback =>
      obtain ⟨r, hr⟩ := get_state_wm_isOk st t hctx
      simp [classify, permitted, hr]
    | Operator =>
      simp [classify, permitted, accessTag, TimeVersionedState.get_state, hctx]
    | Callback =>
      simp [classify, permitted, accessTag, TimeVersionedState.get_state, hctx]
  | get_current_state =>
    cases hctx : st.access_context <;>
      simp [classify, permitted, accessTag, TimeVersionedState.get_current_state,
        hctx, hs0]
  | get_current_state_mut =>
    cases hctx : st.access_context <;>
      simp [classify, permitted, accessTag, TimeVersionedState.get_current_state_mut,
        hctx, hs0]
  | iter_states =>
    cases hctx : st.access_context <;>
      simp [classify, permitted, accessTag, TimeVersionedState.iter_states, hctx]

/-- C3, witness: at a concrete initialized state in the operator context,
`append` (not permitted there) is denied with its diagnostic tag. -/
theorem access_gating_witness :
    classify ((TimeVersionedState.new_with_history_size (S := Nat) (T := Nat)
          1).set_current_time (Timestamp.new [1]))
        StateOp.append Timestamp.bottom 0 0 5 =
      OpOutcome.accessViolation "Attempted to append from Operator::new" :=
  access_gating Nat Nat _ StateOp.append Timestamp.bottom 0 0 5 (by decide) (by decide)

/-- Fixed-width little-endian encoding produces exactly `k` bytes. -/
lemma length_natToBytesLE (k n : Nat) : (natToBytesLE k n).length = k := by
  induction k generalizing n with
  | zero => rfl
  | succ k ih => simp [natToBytesLE, ih]

/-- Decoding the little-endian encoding recovers the value modulo `256 ^ k`. -/
lemma bytesToNatLE_natToBytesLE (k n : Nat) :
    bytesToNatLE (natToBytesLE k n) = n % 256 ^ k := by
  induction k generalizing n with
  | zero => simp [natToBytesLE, bytesToNatLE, Nat.mod_one]
  | succ k ih =>
    simp only [natToBytesLE, bytesToNatLE, ih]
    rw [show (256 : Nat) ^ (k + 1) = 256 * 256 ^ k by ring, Nat.mod_mul]

/-- The header field writer produces four bytes. -/
lemma length_writeU32BE (n : Nat) : (writeU32BE n).length = 4 := by
  simp [writeU32BE, length_natToBytesLE]

/-- Reading a written header field recovers the truncated value. -/
lemma readU32BE_writeU32BE (n : Nat) : readU32BE (writeU32BE n) = n % 2 ^ 32 := by
  simp only [readU32BE, writeU32BE, List.reverse_reverse, bytesToNatLE_natToBytesLE]
  norm_num

/-- The modelled metadata serializer produces eight bytes. -/
lemma length_bincodeSerializeMetadata (m : MessageMetadata) :
    (bincodeSerializeMetadata m).length = 8 := by
  simp [bincodeSerializeMetadata, length_natToBytesLE]

/-- The modelled metadata codec round-trips for in-range stream ids. -/
lemma bincode_metadata_round_trip (m : MessageMetadata) (h : m.stream_id < 2 ^ 64) :
    bincodeDeserializeMetadata (bincodeSerializeMetadata m) = Except.ok m := by
  obtain ⟨sid⟩ := m
  have h2 : sid < 2 ^ 64 := h
  unfold bincodeDeserializeMetadata bincodeSerializeMetadata
  rw [length_natToBytesLE, if_pos rfl, bytesToNatLE_natToBytesLE,
    show (256 : Nat) ^ 8 = 2 ^ 64 by norm_num, Nat.mod_eq_of_lt h2]

/-- Decoding one well-formed frame from a fresh codec: the header, the
metadata bytes and the payload bytes produce exactly one `Serialized`
message and leave an empty buffer with the codec back in its initial
state. -/
lemma decode_frame (md : MessageMetadata) (mser dser : List Nat)
    (hm : bincodeDeserializeMetadata mser = Except.ok md)
    (hmlt : mser.length < 2 ^ 32) (hdlt : dser.length < 2 ^ 32) :
    decode MessageCodec.new
        ((writeU32BE mser.length ++ writeU32BE dser.length) ++ (mser ++ dser)) =
      DecodeResult.ok (some (InterProcessMessage.Serialized md dser))
        MessageCodec.new [] := by
  have h4a : (writeU32BE mser.length).length = 4 := length_writeU32BE _
  have hlen8 : (writeU32BE mser.length ++ writeU32BE dser.length).length = 8 := by
    rw [List.length_append, h4a, length_writeU32BE]
  show decodeHeader none _ = _
  rw [decodeHeader, if_pos (by rw [List.length_append, hlen8]; omega)]
  simp only [List.take_left' hlen8, List.drop_left' hlen8, List.take_left' h4a,
    List.drop_left' h4a, readU32BE_writeU32BE, Nat.mod_eq_of_lt hmlt,
    Nat.mod_eq_of_lt hdlt]
  rw [decodeMetadata, if_pos (by rw [List.length_append]; omega),
    List.take_left' rfl, List.drop_left' rfl, hm]
  simp [decodeData, List.take_length, List.drop_length]

/-- C8: codec round trip. For every `Deserialized` message whose metadata and
payload serializations are in range of the length header, feeding the bytes
produced by `encode` to a fresh decoder yields exactly one `Serialized`
message with equal metadata and with the serialization of the payload as its
bytes, leaving the buffer empty (on which a further decode produces
nothing). -/
theorem codec_round_trip :
    ∀ (md : MessageMetadata) (data : List Nat),
      md.stream_id < 2 ^ 64 → (dataEncode data).length < 2 ^ 32 →
      ∃ buf,
        encode (InterProcessMessage.Deserialized md data) [] = EncodeResult.ok buf ∧
        decode MessageCodec.new buf =
          DecodeResult.ok (some (InterProcessMessage.Serialized md (dataEncode data)))
            MessageCodec.new [] ∧
        decode MessageCodec.new [] = DecodeResult.ok none MessageCodec.new [] := by
  intro md data h1 h2
  have hml := length_bincodeSerializeMetadata md
  refine ⟨[] ++ writeU32BE (bincodeSerializeMetadata md).length ++
      writeU32BE (dataEncode data).length ++ bincodeSerializeMetadata md ++
      dataEncode data, rfl, ?_, rfl⟩
  have hassoc :
      [] ++ writeU32BE (bincodeSerializeMetadata md).length ++
          writeU32BE (dataEncode data).length ++ bincodeSerializeMetadata md ++
          dataEncode data =
        (writeU32BE (bincodeSerializeMetadata md).length ++
            writeU32BE (dataEncode data).length) ++
          (bincodeSerializeMetadata md ++ dataEncode data) := by
    simp [List.append_assoc]
  rw [hassoc]
  exact decode_frame md (bincodeSerializeMetadata md) (dataEncode data)
    (bincode_metadata_round_trip md h1) (by rw [hml]; norm_num) h2

/-- C8, witness: the round trip at a concrete message. -/
theorem codec_round_trip_witness :
    ∃ buf,
      encode (InterProcessMessage.Deserialized ⟨7⟩ [222, 173]) [] =
        EncodeResult.ok buf ∧
      decode MessageCodec.new buf =
        DecodeResult.ok
          (some (InterProcessMessage.Serialized ⟨7⟩ (dataEncode [222, 173])))
          MessageCodec.new [] ∧
      decode MessageCodec.new [] = DecodeResult.ok none MessageCodec.new [] :=
  codec_round_trip ⟨7⟩ [222, 173] (by norm_num) (by decide)

/-- When no entry has key `t`, the key-equality filter is empty. -/
lemma tmap_find_none_filter {α : Type} (l : TMap α) (t : Timestamp)
    (h : TMap.find l t = none) :
    l.filter (fun p => decide (p.1 = t)) = [] := by
  rw [List.filter_eq_nil_iff]
  intro p hp
  cases hf : l.find? (fun q => decide (q.1 = t)) with
  | some q =>
    rw [TMap.find, hf] at h
    exact absurd h (by simp)
  | none =>
    have := List.find?_eq_none.mp hf p hp
    simpa using this

/-- On a sorted map, a successful lookup means the key-equality filter is the
singleton with that entry. -/
lemma tmap_find_some_filter {α : Type} (l : TMap α) (t : Timestamp) (s : α)
    (hl : TMap.Sorted l) (h : TMap.find l t = some s) :
    l.filter (fun p => decide (p.1 = t)) = [(t, s)] := by
  induction l with
  | nil => simp [TMap.find] at h
  | cons p rest ih =>
    obtain ⟨pk, pv⟩ := p
    obtain ⟨hp, hrest⟩ := List.pairwise_cons.mp hl
    by_cases hpt : pk = t
    · subst hpt
      have hfind : TMap.find ((pk, pv) :: rest) pk = some pv := by
        simp [TMap.find, List.find?_cons]
      rw [h] at hfind
      have hs : s = pv := by injection hfind
      subst hs
      have hrestnil : rest.filter (fun q => decide (q.1 = pk)) = [] := by
        rw [List.filter_eq_nil_iff]
        intro q hq
        simpa using ne_of_gt (hp q hq)
      simp [List.filter_cons, hrestnil]
    · have hfind2 : TMap.find ((pk, pv) :: rest) t = TMap.find rest t := by
        simp [TMap.find, List.find?_cons, hpt]
      rw [hfind2] at h
      simpa [List.filter_cons, hpt] using ih hrest h

/-- Decomposition of a sorted range filter at its lower bound: the entries of
`[t, c)` are the (at most one) entry at `t` itself followed by the entries of
`(t, c)`. -/
lemma tmap_range_decomp {α : Type} (l : TMap α) (hl : TMap.Sorted l)
    (t c : Timestamp) :
    l.filter (fun p => decide (t ≤ p.1 ∧ p.1 < c)) =
      l.filter (fun p => decide (p.1 = t ∧ p.1 < c)) ++
        l.filter (fun p => decide (t < p.1 ∧ p.1 < c)) := by
  induction l with
  | nil => rfl
  | cons p rest ih =>
    obtain ⟨hp, hrest⟩ := List.pairwise_cons.mp hl
    have ih2 := ih hrest
    have hErest : t < p.1 →
        rest.filter (fun q => decide (q.1 = t ∧ q.1 < c)) = [] := by
      intro h1
      rw [List.filter_eq_nil_iff]
      intro q hq
      have h2 := hp q hq
      simp only [decide_eq_true_eq, not_and]
      intro hq2
      rw [hq2] at h2
      exact absurd (h1.trans h2) (lt_irrefl t)
    simp only [List.filter_cons, decide_eq_true_eq]
    by_cases hE : p.1 = t ∧ p.1 < c
    · -- head at key `t`
      rw [if_pos ⟨le_of_eq hE.1.symm, hE.2⟩, if_pos hE,
        if_neg (by rintro ⟨h1, -⟩; exact absurd (hE.1 ▸ h1) (lt_irrefl t)), ih2]
      rfl
    · by_cases hB : t < p.1 ∧ p.1 < c
      · -- head above `t`
        rw [if_pos ⟨le_of_lt hB.1, hB.2⟩, if_neg hE, if_pos hB, ih2, hErest hB.1]
        rfl
      · -- head outside the range
        have hA : ¬(t ≤ p.1 ∧ p.1 < c) := by
          rintro ⟨h1, h2⟩
          rcases lt_or_eq_of_le h1 with h3 | h3
          · exact hB ⟨h3, h2⟩
          · exact hE ⟨h3.symm, h2⟩
        rw [if_neg hA, if_neg hE, if_neg hB]
        exact ih2

/-- On a sorted map, filtering by at-least the key of the element at index
`i` is exactly dropping the first `i` entries. -/
lemma tmap_filter_ge_getElem {α : Type} (l : TMap α) (hl : TMap.Sorted l)
    (i : Nat) (h : i < l.length) :
    l.filter (fun p => decide (l[i].1 ≤ p.1)) = l.drop i := by
  induction l generalizing i with
  | nil => simp at h
  | cons p rest ih =>
    obtain ⟨hp, hrest⟩ := List.pairwise_cons.mp hl
    cases i with
    | zero =>
      simp only [List.getElem_cons_zero, List.drop_zero, List.filter_cons,
        decide_eq_true_eq, le_refl, if_true]
      congr 1
      rw [List.filter_eq_self]
      intro q hq
      simp only [decide_eq_true_eq]
      exact le_of_lt (hp q hq)
    | succ j =>
      have hj : j < rest.length := by simpa using h
      simp only [List.getElem_cons_succ, List.filter_cons, decide_eq_true_eq]
      rw [if_neg (not_le.mpr (hp rest[j] (List.getElem_mem hj))), List.drop_succ_cons]
      exact ih hrest j hj

/-- C1, amended: in the watermark-callback context, `get_state(t)` never
errors; it returns `Some` of the state stored at exactly `t` precisely when
`t ≤ current_time`, the state history has an entry at `t`, and at most
`history_size` state-history keys lie strictly between `t` and
`current_time` — so the addressable window is the current timestamp plus up
to `history_size + 1` predecessors, one more than the claim says (in
particular with `history_size = 0` the immediate predecessor entry is still
addressable); outside that window, and for `t > current_time`, it returns
`None`. -/
theorem get_state_window :
    ∀ (S T : Type) (st : TimeVersionedState S T) (t : Timestamp),
      st.access_context = AccessContext.WatermarkCallback →
      TMap.Sorted st.state_history →
      st.get_state t =
        Except.ok
          (if t ≤ st.current_time ∧
              betweenCount st.state_history t st.current_time ≤ st.history_size
           then st.state_history.find t
           else none) := by
  intro S T st t hctx hsort
  simp only [TimeVersionedState.get_state, hctx]
  by_cases hle : t ≤ st.current_time
  · rw [if_pos hle]
    cases hfind : TMap.find st.state_history t with
    | none =>
      cases hnb : nthBack (TMap.rangeCO st.state_history t st.current_time)
          st.history_size with
      | none => simp [hfind, ite_self]
      | some p => simp [hfind, ite_self]
    | some s =>
      rcases eq_or_lt_of_le hle with heq | hlt
      · -- the queried key is the current time: the range is empty
        have hks : TMap.rangeCO st.state_history t st.current_time = [] := by
          rw [TMap.rangeCO, List.filter_eq_nil_iff]
          intro p hp
          simp only [decide_eq_true_eq, not_and]
          intro h1 h2
          rw [← heq] at h2
          exact absurd (lt_of_le_of_lt h1 h2) (lt_irrefl t)
        have hb0 : List.filter
            (fun p => decide (t < p.1 ∧ p.1 < st.current_time))
            st.state_history = [] := by
          rw [List.filter_eq_nil_iff]
          intro p hp
          simp only [decide_eq_true_eq, not_and]
          intro h1 h2
          rw [← heq] at h2
          exact absurd (h1.trans h2) (lt_irrefl t)
        have hbc : betweenCount st.state_history t st.current_time = 0 := by
          unfold betweenCount
          rw [hb0]
          rfl
        have hnil : nthBack ([] : TMap S) st.history_size = none := by
          rw [nthBack]
          simp
        rw [hks, hnil, if_pos ⟨hle, by rw [hbc]; exact Nat.zero_le _⟩]
      · -- the queried key is strictly below the current time
        have hE : st.state_history.filter
            (fun p => decide (p.1 = t ∧ p.1 < st.current_time)) = [(t, s)] := by
          have h1 := tmap_find_some_filter st.state_history t s hsort hfind
          rw [← h1]
          apply List.filter_congr
          intro p hp
          simp only [decide_eq_decide]
          constructor
          · exact fun h => h.1
          · intro h
            exact ⟨h, h ▸ hlt⟩
        have hdec := tmap_range_decomp st.state_history hsort t st.current_time
        simp only [TMap.rangeCO, betweenCount]
        rw [hdec, hE]
        have hrev : nthBack
            ([(t, s)] ++
              List.filter (fun p => decide (t < p.1 ∧ p.1 < st.current_time))
                st.state_history) st.history_size =
            ((List.filter (fun p => decide (t < p.1 ∧ p.1 < st.current_time))
                st.state_history).reverse ++ [(t, s)])[st.history_size]? := by
          rw [nthBack, List.reverse_append]
          rfl
        rw [hrev]
        rcases Nat.lt_trichotomy st.history_size
          (List.filter (fun p => decide (t < p.1 ∧ p.1 < st.current_time))
            st.state_history).length with h9 | h9 | h9
        · -- more than `history_size` keys between: out of the window
          have h11 : st.history_size <
              ((List.filter (fun p => decide (t < p.1 ∧ p.1 < st.current_time))
                st.state_history).reverse).length := by
            rw [List.length_reverse]
            exact h9
          have h10 : ((List.filter (fun p => decide (t < p.1 ∧ p.1 < st.current_time))
                st.state_history).reverse ++ [(t, s)])[st.history_size]? =
              ((List.filter (fun p => decide (t < p.1 ∧ p.1 < st.current_time))
                st.state_history).reverse)[st.history_size]? := by
            rw [List.getElem?_append]
            rw [if_pos h11]
          obtain ⟨p, hp⟩ : ∃ p,
              ((List.filter (fun p => decide (t < p.1 ∧ p.1 < st.current_time))
                st.state_history).reverse)[st.history_size]? = some p :=
            ⟨_, List.getElem?_eq_getElem h11⟩
          have hpB : p ∈ List.filter (fun p => decide (t < p.1 ∧ p.1 < st.current_time))
              st.state_history := by
            obtain ⟨hlt3, heq3⟩ := List.getElem?_eq_some.mp hp
            exact List.mem_reverse.mp (heq3 ▸ List.getElem_mem hlt3)
          have hpt : t < p.1 :=
            (of_decide_eq_true (List.mem_filter.mp hpB).2).1
          rw [h10, hp]
          show (if p.1 ≤ t then Except.ok (some s) else Except.ok none) = _
          rw [if_neg (not_le.mpr hpt), if_neg (fun hc => absurd hc.2 (by omega))]
        · -- exactly `history_size` keys between: the boundary entry at `t`
          have h10 : ((List.filter (fun p => decide (t < p.1 ∧ p.1 < st.current_time))
                st.state_history).reverse ++ [(t, s)])[st.history_size]? =
              some (t, s) := by
            rw [List.getElem?_append_right (by rw [List.length_reverse]; omega)]
            simp [List.length_reverse, h9]
          rw [h10]
          show (if (t, s).1 ≤ t then Except.ok (some s) else Except.ok none) = _
          rw [if_pos (le_refl t), if_pos ⟨hle, by omega⟩]
        · -- fewer keys than `history_size`: inside the window
          have h10 : ((List.filter (fun p => decide (t < p.1 ∧ p.1 < st.current_time))
                st.state_history).reverse ++ [(t, s)])[st.history_size]? = none := by
            apply List.getElem?_eq_none
            simp only [List.length_append, List.length_reverse, List.length_cons,
              List.length_nil]
            omega
          rw [h10]
          show Except.ok (some s) = _
          rw [if_pos ⟨hle, le_of_lt h9⟩]
  · rw [if_neg hle, if_neg (fun h => hle h.1)]

/-- C1, witness: with history size 1, current time `[3]` and state-history
keys `[1]`, `[2]`, `[3]`, the key `[1]` (one strictly-between key, within the
amended window) is readable. -/
theorem get_state_window_witness :
    (⟨Timestamp.new [3], 1, AccessContext.WatermarkCallback,
        [],
        [(Timestamp.new [1], 10), (Timestamp.new [2], 20), (Timestamp.new [3], 30)]⟩ :
          TimeVersionedState Nat Nat).get_state (Timestamp.new [1]) =
      Except.ok (some 10) := by
  have h := get_state_window Nat Nat
    ⟨Timestamp.new [3], 1, AccessContext.WatermarkCallback, [],
      [(Timestamp.new [1], 10), (Timestamp.new [2], 20), (Timestamp.new [3], 30)]⟩
    (Timestamp.new [1]) rfl (by decide)
  rw [h]
  decide

/-- C1, counterexample: with `history_size = 0` the claim says only the
current timestamp's state is addressable, but on the state reached by
`set_current_time([1])` then `set_current_time([2])` the code returns the
state stored at `[1]`, a strict predecessor of the current time `[2]`. -/
theorem get_state_history_zero_cex :
    ((((TimeVersionedState.new (S := Nat) (T := Nat)).set_current_time
            (Timestamp.new [1])).set_current_time
          (Timestamp.new [2])).set_access_context
        AccessContext.WatermarkCallback).history_size = 0 ∧
    ((((TimeVersionedState.new (S := Nat) (T := Nat)).set_current_time
            (Timestamp.new [1])).set_current_time
          (Timestamp.new [2])).set_access_context
        AccessContext.WatermarkCallback).current_time = Timestamp.new [2] ∧
    Timestamp.new [1] ≠ Timestamp.new [2] ∧
    ((((TimeVersionedState.new (S := Nat) (T := Nat)).set_current_time
            (Timestamp.new [1])).set_current_time
          (Timestamp.new [2])).set_access_context
        AccessContext.WatermarkCallback).get_state (Timestamp.new [1]) =
      Except.ok (some 0) ∧
    (Except.ok (some 0) : Except AccessError (Option Nat)) ≠ Except.ok none := by
  refine ⟨by decide, by decide, by decide, by decide, by decide⟩

/-- When `firstKeyAbove` finds nothing, every key is at most `t`. -/
lemma tmap_firstKeyAbove_none {α : Type} (m : TMap α) (t : Timestamp)
    (h : TMap.firstKeyAbove m t = none) :
    ∀ p ∈ m, p.1 ≤ t := by
  intro p hp
  unfold TMap.firstKeyAbove at h
  rw [Option.map_eq_none', List.head?_eq_none_iff, List.filter_eq_nil_iff] at h
  have := h p hp
  simpa using this

/-- When `firstKeyAbove` finds a key, it is the key of an entry strictly
above `t`. -/
lemma tmap_firstKeyAbove_some {α : Type} (m : TMap α) (t k : Timestamp)
    (h : TMap.firstKeyAbove m t = some k) :
    ∃ q ∈ m, q.1 = k ∧ t < q.1 := by
  unfold TMap.firstKeyAbove at h
  rw [Option.map_eq_some'] at h
  obtain ⟨q, hq1, hq2⟩ := h
  have hqm : q ∈ m.filter (fun p => decide (t < p.1)) :=
    List.mem_of_mem_head? hq1
  rw [List.mem_filter] at hqm
  exact ⟨q, hqm.1, hq2, of_decide_eq_true hqm.2⟩

/-- The state-history split of `close_time` for positive history sizes: when
the back-cursor over the keys `≤ t` finds nothing there are fewer than
`history_size` such keys; when it finds the split key, splitting there keeps
exactly the most recent `history_size` entries with keys `≤ t` and all
entries with keys above `t`. -/
lemma close_state_branch {α : Type} (sh ks : TMap α) (t : Timestamp) (hs : Nat)
    (hsort : TMap.Sorted sh) (hpos : 1 ≤ hs)
    (hks : ks = sh.filter (fun p => decide (p.1 ≤ t))) :
    (nthBack (ks.map Prod.fst) (hs - 1) = none → ks.length < hs) ∧
    (∀ split_t, nthBack (ks.map Prod.fst) (hs - 1) = some split_t →
      (sh.filter (fun p => decide (split_t ≤ p.1))).filter
          (fun p => decide (p.1 ≤ t)) = ks.drop (ks.length - hs) ∧
      (sh.filter (fun p => decide (split_t ≤ p.1))).filter
          (fun p => decide (t < p.1)) = sh.filter (fun p => decide (t < p.1))) := by
  have hks_sorted : TMap.Sorted ks := hks ▸ List.Pairwise.filter _ hsort
  have hks_le : ∀ p ∈ ks, p.1 ≤ t := by
    intro p hp
    rw [hks, List.mem_filter] at hp
    exact of_decide_eq_true hp.2
  constructor
  · intro hnone
    rw [nthBack] at hnone
    by_contra h0
    push_neg at h0
    have hx : hs - 1 < ((ks.map Prod.fst).reverse).length := by
      rw [List.length_reverse, List.length_map]
      omega
    rw [List.getElem?_eq_getElem hx] at hnone
    exact absurd hnone (by simp)
  · intro split_t hsome
    rw [nthBack] at hsome
    have hidx : hs - 1 < ((ks.map Prod.fst).reverse).length := by
      by_contra h0
      push_neg at h0
      rw [List.getElem?_eq_none h0] at hsome
      exact absurd hsome (by simp)
    have hlen : hs ≤ ks.length := by
      rw [List.length_reverse, List.length_map] at hidx
      omega
    have hL : ks.length - hs < ks.length := by omega
    have hgr : ((ks.map Prod.fst).reverse)[hs - 1]? =
        (ks.map Prod.fst)[ks.length - hs]? := by
      rw [List.getElem?_reverse (by rw [List.length_map]; omega)]
      congr 1
      rw [List.length_map]
      omega
    rw [hgr, List.getElem?_map, List.getElem?_eq_getElem hL,
      Option.map_some'] at hsome
    have hsplit : (ks[ks.length - hs]).1 = split_t := by
      injection hsome
    have hXt : split_t ≤ t := by
      rw [← hsplit]
      exact hks_le _ (List.getElem_mem hL)
    constructor
    · calc (sh.filter (fun p => decide (split_t ≤ p.1))).filter
            (fun p => decide (p.1 ≤ t))
          = sh.filter (fun a =>
              decide (a.1 ≤ t) && decide (split_t ≤ a.1)) :=
            List.filter_filter _ _
        _ = sh.filter (fun a =>
              decide (split_t ≤ a.1) && decide (a.1 ≤ t)) :=
            List.filter_congr (fun p _ => Bool.and_comm _ _)
        _ = ks.filter (fun p => decide (split_t ≤ p.1)) := by
            rw [hks, List.filter_filter]
        _ = ks.filter (fun p => decide ((ks[ks.length - hs]).1 ≤ p.1)) :=
            List.filter_congr (fun p _ => by rw [hsplit])
        _ = ks.drop (ks.length - hs) :=
            tmap_filter_ge_getElem ks hks_sorted (ks.length - hs) hL
    · rw [List.filter_filter]
      apply List.filter_congr
      intro p hp
      by_cases h : t < p.1
      · simp [h, le_of_lt (lt_of_le_of_lt hXt h)]
      · simp [h]

/-- C2, amended: after `close_time(t)` the message history has no key `≤ t`.
For `history_size ≥ 1` the state history keeps exactly the most recent
`min(history_size, number of keys ≤ t)` entries with keys `≤ t` (so at most
`history_size` of them), and the entries with keys above `t` are untouched.
For `history_size = 0`, contrary to the claim, the garbage collection depends
on a successor entry: when some state-history key lies above `t` every entry
with key `≤ t` is dropped, but when no key lies above `t` the state history
is left entirely unchanged, so entries `≤ t` beyond `max(history_size, 1)`
can survive. -/
theorem close_time_gc :
    ∀ (S T : Type) (st : TimeVersionedState S T) (t : Timestamp),
      TMap.Sorted st.state_history →
      (∀ p ∈ (st.close_time t).message_history, t < p.1) ∧
      (st.history_size = 0 →
        ((∃ p ∈ st.state_history, t < p.1) →
          ∀ p ∈ (st.close_time t).state_history, t < p.1) ∧
        ((∀ p ∈ st.state_history, p.1 ≤ t) →
          (st.close_time t).state_history = st.state_history)) ∧
      (1 ≤ st.history_size →
        ((st.close_time t).state_history.filter (fun p => decide (p.1 ≤ t)) =
          (st.state_history.filter (fun p => decide (p.1 ≤ t))).drop
            ((st.state_history.filter (fun p => decide (p.1 ≤ t))).length -
              st.history_size)) ∧
        (((st.close_time t).state_history.filter
            (fun p => decide (p.1 ≤ t))).length ≤ st.history_size) ∧
        ((st.close_time t).state_history.filter (fun p => decide (t < p.1)) =
          st.state_history.filter (fun p => decide (t < p.1)))) := by
  intro S T st t hsort
  refine ⟨?_, ?_, ?_⟩
  · intro p hp
    simp only [TimeVersionedState.close_time, TMap.splitOff, TMap.remove] at hp
    rw [List.mem_filter] at hp
    obtain ⟨hp1, h2⟩ := hp
    rw [List.mem_filter] at hp1
    obtain ⟨hmem, h1⟩ := hp1
    have h1a : t ≤ p.1 := of_decide_eq_true h1
    have h2a : p.1 ≠ t := by simpa using h2
    exact lt_of_le_of_ne h1a (Ne.symm h2a)
  · intro h0
    have hif : (st.close_time t).state_history =
        match st.state_history.firstKeyAbove t with
        | some split_t => st.state_history.splitOff split_t
        | none => st.state_history := by
      simp [TimeVersionedState.close_time, h0]
    constructor
    · intro hex p hp
      rw [hif] at hp
      cases hfa : st.state_history.firstKeyAbove t with
      | none =>
        exfalso
        obtain ⟨q, hq, hqt⟩ := hex
        exact absurd (tmap_firstKeyAbove_none _ _ hfa q hq) (not_le.mpr hqt)
      | some k =>
        rw [hfa] at hp
        obtain ⟨q, hqm, hqk, hqt⟩ := tmap_firstKeyAbove_some _ _ _ hfa
        simp only [TMap.splitOff] at hp
        rw [List.mem_filter] at hp
        have hk : k ≤ p.1 := of_decide_eq_true hp.2
        exact lt_of_lt_of_le (hqk ▸ hqt) hk
    · intro hall
      rw [hif]
      cases hfa : st.state_history.firstKeyAbove t with
      | none => rfl
      | some k =>
        exfalso
        obtain ⟨q, hqm, hqk, hqt⟩ := tmap_firstKeyAbove_some _ _ _ hfa
        exact absurd (hall q hqm) (not_le.mpr hqt)
  · intro hpos
    have hne : ¬ st.history_size = 0 := by omega
    have hif : (st.close_time t).state_history =
        match nthBack ((st.state_history.rangeLe t).map Prod.fst)
            (st.history_size - 1) with
        | some split_t => st.state_history.splitOff split_t
        | none => st.state_history := by
      simp [TimeVersionedState.close_time, hne]
    have hbranch := close_state_branch st.state_history
      (st.state_history.rangeLe t) t st.history_size hsort hpos rfl
    cases hfa : nthBack ((st.state_history.rangeLe t).map Prod.fst)
        (st.history_size - 1) with
    | none =>
      rw [hfa] at hif
      have hif2 : (st.close_time t).state_history = st.state_history := hif
      have hlen : (st.state_history.filter
          (fun p => decide (p.1 ≤ t))).length < st.history_size := hbranch.1 hfa
      rw [hif2]
      refine ⟨?_, by omega, rfl⟩
      rw [Nat.sub_eq_zero_of_le (le_of_lt hlen), List.drop_zero]
    | some k =>
      rw [hfa] at hif
      have hif2 : (st.close_time t).state_history =
          st.state_history.splitOff k := hif
      obtain ⟨hc1, hc3⟩ := hbranch.2 k hfa
      simp only [TMap.rangeLe] at hc1 hc3
      rw [hif2]
      simp only [TMap.splitOff]
      refine ⟨hc1, ?_, hc3⟩
      rw [hc1, List.length_drop]
      omega

/-- C2, witness: the positive-history clause applied at a concrete sorted
state with history size 2, three keys `≤ [2]` and none above. -/
theorem close_time_gc_witness :
    ((⟨Timestamp.new [2], 2, AccessContext.WatermarkCallback, [],
          [(Timestamp.bottom, 100), (Timestamp.new [1], 6), (Timestamp.new [2], 12)]⟩ :
        TimeVersionedState Nat Nat).close_time
          (Timestamp.new [2])).state_history.filter
        (fun p => decide (p.1 ≤ Timestamp.new [2])) =
      ((⟨Timestamp.new [2], 2, AccessContext.WatermarkCallback, [],
          [(Timestamp.bottom, 100), (Timestamp.new [1], 6), (Timestamp.new [2], 12)]⟩ :
        TimeVersionedState Nat Nat).state_history.filter
          (fun p => decide (p.1 ≤ Timestamp.new [2]))).drop
        (((⟨Timestamp.new [2], 2, AccessContext.WatermarkCallback, [],
            [(Timestamp.bottom, 100), (Timestamp.new [1], 6), (Timestamp.new [2], 12)]⟩ :
          TimeVersionedState Nat Nat).state_history.filter
            (fun p => decide (p.1 ≤ Timestamp.new [2]))).length -
          (⟨Timestamp.new [2], 2, AccessContext.WatermarkCallback, [],
            [(Timestamp.bottom, 100), (Timestamp.new [1], 6), (Timestamp.new [2], 12)]⟩ :
          TimeVersionedState Nat Nat).history_size) ∧
    (((⟨Timestamp.new [2], 2, AccessContext.WatermarkCallback, [],
          [(Timestamp.bottom, 100), (Timestamp.new [1], 6), (Timestamp.new [2], 12)]⟩ :
        TimeVersionedState Nat Nat).close_time
          (Timestamp.new [2])).state_history.filter
        (fun p => decide (p.1 ≤ Timestamp.new [2]))).length ≤
      (⟨Timestamp.new [2], 2, AccessContext.WatermarkCallback, [],
        [(Timestamp.bottom, 100), (Timestamp.new [1], 6), (Timestamp.new [2], 12)]⟩ :
        TimeVersionedState Nat Nat).history_size ∧
    ((⟨Timestamp.new [2], 2, AccessContext.WatermarkCallback, [],
          [(Timestamp.bottom, 100), (Timestamp.new [1], 6), (Timestamp.new [2], 12)]⟩ :
        TimeVersionedState Nat Nat).close_time
          (Timestamp.new [2])).state_history.filter
        (fun p => decide (Timestamp.new [2] < p.1)) =
      (⟨Timestamp.new [2], 2, AccessContext.WatermarkCallback, [],
          [(Timestamp.bottom, 100), (Timestamp.new [1], 6), (Timestamp.new [2], 12)]⟩ :
        TimeVersionedState Nat Nat).state_history.filter
          (fun p => decide (Timestamp.new [2] < p.1)) :=
  (close_time_gc Nat Nat
      ⟨Timestamp.new [2], 2, AccessContext.WatermarkCallback, [],
        [(Timestamp.bottom, 100), (Timestamp.new [1], 6), (Timestamp.new [2], 12)]⟩
      (Timestamp.new [2]) (by decide)).2.2 (by decide)

/-- C2, counterexample: with `history_size = 0` and no state-history key
above `t`, `close_time(t)` drops nothing: on the state reached by
`set_current_time([1])` then `set_current_time([2])`, closing `[2]` leaves
both state entries, i.e. two keys `≤ t` survive although the claim allows at
most `max(history_size, 1) = 1` and says all of them are dropped. -/
theorem close_time_gc_zero_cex :
    (((TimeVersionedState.new (S := Nat) (T := Nat)).set_current_time
          (Timestamp.new [1])).set_current_time
        (Timestamp.new [2])).history_size = 0 ∧
    ((((TimeVersionedState.new (S := Nat) (T := Nat)).set_current_time
            (Timestamp.new [1])).set_current_time
          (Timestamp.new [2])).close_time (Timestamp.new [2])).state_history =
      [(Timestamp.new [1], 0), (Timestamp.new [2], 0)] ∧
    (((((TimeVersionedState.new (S := Nat) (T := Nat)).set_current_time
            (Timestamp.new [1])).set_current_time
          (Timestamp.new [2])).close_time
          (Timestamp.new [2])).state_history.filter
        (fun p => decide (p.1 ≤ Timestamp.new [2]))).length = 2 ∧
    max (((TimeVersionedState.new (S := Nat) (T := Nat)).set_current_time
          (Timestamp.new [1])).set_current_time
        (Timestamp.new [2])).history_size 1 = 1 ∧
    ¬ (2 : Nat) ≤ 1 := by
  refine ⟨by decide, by decide, by decide, by decide, by decide⟩

end Erdos
